import Mathlib

/-!
Verification of the Atari-Skiing-RL core game loop and agent components.

The environment, the preprocessing function and the neural network are external
collaborators of the repository; they are abstracted here as function parameters:
`env : ℕ → ℕ → StepResult Raw` models the stateful gym environment as a map from
(internal step counter, action) to the step outcome, `preprocess : Raw → F` models
`atari_preprocess`, and a `chooser` function models `agent.take_action` (online
network + exploration policy).  A stacked state is the list of its channel slices,
newest frame first, mirroring the channel axis (axis 3) of the numpy arrays in
`game_engine/game.py`.
-/

namespace AtariSkiing

/-- Outcome of one `env.step(action)` call: observation frame, reward, done flag. -/
structure StepResult (Raw : Type) where
  obs : Raw
  reward : ℤ
  done : Bool
deriving DecidableEq

/-- A replay-memory entry `<s, a, r, s'>` as appended by `Game._repeat_action`
    (`agent.append_to_memory(current_state, action, reward, next_state)`). -/
structure Transition (F : Type) where
  state : List F
  action : ℕ
  reward : ℤ
  nextState : List F
deriving DecidableEq

/-- Frame stacking step of `Game._repeat_action` (game.py line 99):
    `next_state = np.append(next_state, current_state[:, :, :, :agent_frame_history - 1], axis=3)`.
    The preprocessed new frame becomes channel 0; the first
    `agent_frame_history - 1` channels of the previous state are kept after it. -/
def stackFrames (F : Type) (newFrame : F) (currentState : List F)
    (agentFrameHistory : ℕ) : List F :=
  newFrame :: currentState.take (agentFrameHistory - 1)

/-- Initial stacked state of an episode (game.py lines 195-205):
    `current_state = atari_preprocess(current_state, ...)` followed by
    `np.stack(tuple([current_state for _ in range(self._agent_frame_history)]), axis=2)`. -/
def initialStackedState (Raw F : Type) (preprocess : Raw → F) (agentFrameHistory : ℕ)
    (obs : Raw) : List F :=
  let f := preprocess obs
  (List.range agentFrameHistory).map (fun _ => f)

/-- Result of `Game._repeat_action` (and of `Game._train_and_play`, which returns data
    of the same shape): the `next_state` variable (the raw frame when the loop broke on
    `done`, before preprocessing; the stacked state otherwise), the accumulated reward,
    the done flag, the list of transitions appended to the agent's replay memory, and
    the environment step counter after the call (modelling how far the external
    environment state has advanced). -/
structure RepeatResult (Raw F : Type) where
  nextState : Raw ⊕ List F
  reward : ℤ
  done : Bool
  appended : List (Transition F)
  time : ℕ
deriving DecidableEq

/-- Body of `Game._repeat_action` (game.py lines 82-107), recursing on the remaining
    iterations of `for _ in range(self._steps_per_action)`.  `racc` is the running
    `reward` variable (initialised to 0 by the caller), `t` the environment step
    counter, `cur` the `current_state` variable.  On `done` the loop breaks right
    after `reward += new_reward`, before preprocessing, stacking and the memory
    append. -/
def repeatActionGo (Raw F : Type) (preprocess : Raw → F) (agentFrameHistory : ℕ)
    (env : ℕ → ℕ → StepResult Raw) (action : ℕ) :
    ℕ → ℕ → List F → ℤ → RepeatResult Raw F
  | 0, t, cur, racc => ⟨Sum.inr cur, racc, false, [], t⟩
  | n + 1, t, cur, racc =>
    let s := env t action
    let racc2 := racc + s.reward
    if s.done then ⟨Sum.inl s.obs, racc2, true, [], t + 1⟩
    else
      let next := stackFrames F (preprocess s.obs) cur agentFrameHistory
      let rest := repeatActionGo Raw F preprocess agentFrameHistory env action n (t + 1) next racc2
      ⟨rest.nextState, rest.reward, rest.done,
        ⟨cur, action, racc2, next⟩ :: rest.appended, rest.time⟩

/-- `Game._repeat_action(agent, current_state, action)` with `steps_per_action = n`,
    starting at environment step counter `t`:
    `reward, next_state, done = 0, current_state, False` then the repeat loop. -/
def repeatAction (Raw F : Type) (preprocess : Raw → F) (agentFrameHistory : ℕ)
    (env : ℕ → ℕ → StepResult Raw) (action n t : ℕ) (cur : List F) : RepeatResult Raw F :=
  repeatActionGo Raw F preprocess agentFrameHistory env action n t cur 0

/-- Number of environment steps the repeat loop executes before returning, starting
    at step counter `t` with `n` iterations budgeted: it stops after the first step
    reporting done, or after `n` steps. -/
def stepsTaken (Raw : Type) (env : ℕ → ℕ → StepResult Raw) (action : ℕ) :
    ℕ → ℕ → ℕ
  | _, 0 => 0
  | t, n + 1 => if (env t action).done then 1 else 1 + stepsTaken Raw env action (t + 1) n

/-- Whether the environment reports done within the first `n` steps starting at
    step counter `t`. -/
def doneWithin (Raw : Type) (env : ℕ → ℕ → StepResult Raw) (action : ℕ) :
    ℕ → ℕ → Bool
  | _, 0 => false
  | t, n + 1 => (env t action).done || doneWithin Raw env action (t + 1) n

theorem stepsTaken_le (Raw : Type) (env : ℕ → ℕ → StepResult Raw) (action : ℕ) :
    ∀ n t, stepsTaken Raw env action t n ≤ n := by
  intro n
  induction n with
  | zero => intro t; simp [stepsTaken]
  | succ n ih =>
    intro t
    by_cases hd : (env t action).done = true
    · simp [stepsTaken, hd]
    · simp only [stepsTaken, hd, Bool.false_eq_true, if_false]
      have := ih (t + 1)
      omega

theorem stepsTaken_of_not_done (Raw : Type) (env : ℕ → ℕ → StepResult Raw) (action : ℕ) :
    ∀ n t, doneWithin Raw env action t n = false → stepsTaken Raw env action t n = n := by
  intro n
  induction n with
  | zero => intro t _; rfl
  | succ n ih =>
    intro t hnd
    simp only [doneWithin, Bool.or_eq_false_iff] at hnd
    simp only [stepsTaken, hnd.1, Bool.false_eq_true, if_false]
    rw [ih (t + 1) hnd.2]
    omega

theorem stepsTaken_pos_of_done (Raw : Type) (env : ℕ → ℕ → StepResult Raw) (action : ℕ) :
    ∀ n t, doneWithin Raw env action t n = true → 1 ≤ stepsTaken Raw env action t n := by
  intro n
  induction n with
  | zero => intro t h; simp [doneWithin] at h
  | succ n ih =>
    intro t _
    by_cases hd : (env t action).done = true
    · simp [stepsTaken, hd]
    · simp only [stepsTaken, hd, Bool.false_eq_true, if_false]
      omega

theorem repeatActionGo_done (Raw F : Type) (preprocess : Raw → F) (h : ℕ)
    (env : ℕ → ℕ → StepResult Raw) (action : ℕ) :
    ∀ n t (cur : List F) (racc : ℤ),
      (repeatActionGo Raw F preprocess h env action n t cur racc).done
        = doneWithin Raw env action t n := by
  intro n
  induction n with
  | zero => intro t cur racc; rfl
  | succ n ih =>
    intro t cur racc
    by_cases hd : (env t action).done = true
    · simp [repeatActionGo, doneWithin, hd]
    · simp [repeatActionGo, doneWithin, hd, ih]

theorem repeatActionGo_time (Raw F : Type) (preprocess : Raw → F) (h : ℕ)
    (env : ℕ → ℕ → StepResult Raw) (action : ℕ) :
    ∀ n t (cur : List F) (racc : ℤ),
      (repeatActionGo Raw F preprocess h env action n t cur racc).time
        = t + stepsTaken Raw env action t n := by
  intro n
  induction n with
  | zero => intro t cur racc; simp [repeatActionGo, stepsTaken]
  | succ n ih =>
    intro t cur racc
    by_cases hd : (env t action).done = true
    · simp [repeatActionGo, stepsTaken, hd]
    · simp only [repeatActionGo, stepsTaken, hd, Bool.false_eq_true, if_false]
      rw [ih]
      omega

theorem repeatActionGo_reward (Raw F : Type) (preprocess : Raw → F) (h : ℕ)
    (env : ℕ → ℕ → StepResult Raw) (action : ℕ) :
    ∀ n t (cur : List F) (racc : ℤ),
      (repeatActionGo Raw F preprocess h env action n t cur racc).reward
        = racc + ∑ i ∈ Finset.range (stepsTaken Raw env action t n),
            (env (t + i) action).reward := by
  intro n
  induction n with
  | zero => intro t cur racc; simp [repeatActionGo, stepsTaken]
  | succ n ih =>
    intro t cur racc
    by_cases hd : (env t action).done = true
    · simp [repeatActionGo, stepsTaken, hd]
    · simp only [repeatActionGo, stepsTaken, hd, Bool.false_eq_true, if_false]
      rw [ih]
      rw [show 1 + stepsTaken Raw env action (t + 1) n
            = stepsTaken Raw env action (t + 1) n + 1 by omega]
      rw [Finset.sum_range_succ']
      have harg : ∀ i : ℕ, t + 1 + i = t + (i + 1) := by intro i; omega
      rw [Finset.sum_congr rfl (fun i _ => by rw [harg i])]
      simp only [Nat.add_zero]
      omega

theorem repeatActionGo_appended_length (Raw F : Type) (preprocess : Raw → F) (h : ℕ)
    (env : ℕ → ℕ → StepResult Raw) (action : ℕ) :
    ∀ n t (cur : List F) (racc : ℤ),
      (repeatActionGo Raw F preprocess h env action n t cur racc).appended.length
        = if doneWithin Raw env action t n then stepsTaken Raw env action t n - 1 else n := by
  intro n
  induction n with
  | zero => intro t cur racc; simp [repeatActionGo, doneWithin]
  | succ n ih =>
    intro t cur racc
    by_cases hd : (env t action).done = true
    · simp [repeatActionGo, doneWithin, stepsTaken, hd]
    · simp only [repeatActionGo, doneWithin, stepsTaken, hd, Bool.false_eq_true, if_false,
        Bool.false_or, List.length_cons]
      rw [ih]
      by_cases hdw : doneWithin Raw env action (t + 1) n = true
      · have := stepsTaken_pos_of_done Raw env action n (t + 1) hdw
        simp only [hdw, if_true]
        omega
      · simp only [hdw, Bool.false_eq_true, if_false]

theorem repeatActionGo_appended_action (Raw F : Type) (preprocess : Raw → F) (h : ℕ)
    (env : ℕ → ℕ → StepResult Raw) (action : ℕ) :
    ∀ n t (cur : List F) (racc : ℤ) tr,
      tr ∈ (repeatActionGo Raw F preprocess h env action n t cur racc).appended →
        tr.action = action := by
  intro n
  induction n with
  | zero => intro t cur racc tr htr; simp [repeatActionGo] at htr
  | succ n ih =>
    intro t cur racc tr htr
    by_cases hd : (env t action).done = true
    · simp [repeatActionGo, hd] at htr
    · simp only [repeatActionGo, hd, Bool.false_eq_true, if_false, List.mem_cons] at htr
      rcases htr with h1 | h2
      · rw [h1]
      · exact ih _ _ _ _ h2

theorem repeatActionGo_appended_nonterminal (Raw F : Type) (preprocess : Raw → F) (h : ℕ)
    (env : ℕ → ℕ → StepResult Raw) (action : ℕ) :
    ∀ n t (cur : List F) (racc : ℤ) i,
      i < (repeatActionGo Raw F preprocess h env action n t cur racc).appended.length →
        (env (t + i) action).done = false := by
  intro n
  induction n with
  | zero => intro t cur racc i hi; simp [repeatActionGo] at hi
  | succ n ih =>
    intro t cur racc i hi
    by_cases hd : (env t action).done = true
    · simp [repeatActionGo, hd] at hi
    · simp only [repeatActionGo, hd, Bool.false_eq_true, if_false, List.length_cons] at hi
      match i with
      | 0 =>
        simpa using hd
      | i + 1 =>
        have := ih (t + 1) (stackFrames F (preprocess (env t action).obs) cur h)
          (racc + (env t action).reward) i (by omega)
        rw [show t + (i + 1) = t + 1 + i by omega]
        exact this

theorem repeatActionGo_appended_reward (Raw F : Type) (preprocess : Raw → F) (h : ℕ)
    (env : ℕ → ℕ → StepResult Raw) (action : ℕ) :
    ∀ n t (cur : List F) (racc : ℤ) i,
      i < (repeatActionGo Raw F preprocess h env action n t cur racc).appended.length →
      ((repeatActionGo Raw F preprocess h env action n t cur racc).appended.getD i
          ⟨[], 0, 0, []⟩).reward
        = racc + ∑ j ∈ Finset.range (i + 1), (env (t + j) action).reward := by
  intro n
  induction n with
  | zero =>
    intro t cur racc i hi
    simp [repeatActionGo] at hi
  | succ n ih =>
    intro t cur racc i hi
    by_cases hd : (env t action).done = true
    · simp [repeatActionGo, hd] at hi
    · simp only [repeatActionGo, hd, Bool.false_eq_true, if_false, List.length_cons] at hi ⊢
      match i with
      | 0 =>
        simp [Finset.sum_range_one]
      | i + 1 =>
        simp only [List.getD_cons_succ]
        rw [ih (t + 1) (stackFrames F (preprocess (env t action).obs) cur h)
          (racc + (env t action).reward) i (by omega)]
        have harg : ∀ j : ℕ, t + 1 + j = t + (j + 1) := by intro j; omega
        have hbody : ∑ j ∈ Finset.range (i + 1), (env (t + 1 + j) action).reward
            = ∑ j ∈ Finset.range (i + 1), (env (t + (j + 1)) action).reward :=
          Finset.sum_congr rfl (fun j _ => by rw [harg j])
        have hsplit : ∑ j ∈ Finset.range (i + 1 + 1), (env (t + j) action).reward
            = (∑ j ∈ Finset.range (i + 1), (env (t + (j + 1)) action).reward)
              + (env (t + 0) action).reward :=
          Finset.sum_range_succ' _ _
        rw [hbody, hsplit]
        simp only [Nat.add_zero]
        omega

/-- A small concrete environment used by the witnesses: at step `t` it returns
    observation `t`, reward `t + 1`, and reports done from step 2 on, for any action. -/
def wEnv : ℕ → ℕ → StepResult ℕ :=
  fun t _ => ⟨t, (t : ℤ) + 1, decide (2 ≤ t)⟩

/-- C1: `Game._repeat_action` holds the chosen action for `steps_per_action`
    consecutive environment steps: its done flag records whether the environment
    reported done within the repeat, its reward is the sum of the rewards of the
    sub-steps actually executed (the repeat stops on the first done sub-step), every
    appended transition carries the chosen action, and on an early done termination
    the number of memory appends is one less than the executed sub-steps — the
    preprocessing, frame stacking and append of the done sub-step and of all
    remaining sub-steps are skipped. -/
theorem repeat_action_repeats_and_stops_on_done (Raw F : Type) (preprocess : Raw → F)
    (h : ℕ) (env : ℕ → ℕ → StepResult Raw) (action n t : ℕ) (cur : List F) :
    (repeatAction Raw F preprocess h env action n t cur).done
      = doneWithin Raw env action t n ∧
    (repeatAction Raw F preprocess h env action n t cur).reward
      = ∑ i ∈ Finset.range (stepsTaken Raw env action t n), (env (t + i) action).reward ∧
    (repeatAction Raw F preprocess h env action n t cur).time
      = t + stepsTaken Raw env action t n ∧
    (∀ tr ∈ (repeatAction Raw F preprocess h env action n t cur).appended,
      tr.action = action) ∧
    (repeatAction Raw F preprocess h env action n t cur).appended.length
      = if doneWithin Raw env action t n then stepsTaken Raw env action t n - 1 else n := by
  refine ⟨repeatActionGo_done Raw F preprocess h env action n t cur 0, ?_,
    repeatActionGo_time Raw F preprocess h env action n t cur 0,
    fun tr htr => repeatActionGo_appended_action Raw F preprocess h env action n t cur 0 tr htr,
    repeatActionGo_appended_length Raw F preprocess h env action n t cur 0⟩
  rw [repeatAction, repeatActionGo_reward]
  exact zero_add _

/-- Witness for C1: the statement instantiated at a concrete environment, frame
    history 2, action 9, four budgeted sub-steps and starting state `[7, 7]`. -/
theorem repeat_action_repeats_and_stops_on_done_witness :
    (repeatAction ℕ ℕ (fun r => r) 2 wEnv 9 4 0 [7, 7]).done = doneWithin ℕ wEnv 9 0 4 ∧
    (repeatAction ℕ ℕ (fun r => r) 2 wEnv 9 4 0 [7, 7]).reward
      = ∑ i ∈ Finset.range (stepsTaken ℕ wEnv 9 0 4), (wEnv (0 + i) 9).reward ∧
    (repeatAction ℕ ℕ (fun r => r) 2 wEnv 9 4 0 [7, 7]).time = 0 + stepsTaken ℕ wEnv 9 0 4 ∧
    (∀ tr ∈ (repeatAction ℕ ℕ (fun r => r) 2 wEnv 9 4 0 [7, 7]).appended, tr.action = 9) ∧
    (repeatAction ℕ ℕ (fun r => r) 2 wEnv 9 4 0 [7, 7]).appended.length
      = if doneWithin ℕ wEnv 9 0 4 then stepsTaken ℕ wEnv 9 0 4 - 1 else 4 :=
  repeat_action_repeats_and_stops_on_done ℕ ℕ (fun r => r) 2 wEnv 9 4 0 [7, 7]

/-- C2: the first stacked state of an episode is the preprocessed initial frame
    replicated `agent_frame_history` times along the channel axis, and each
    subsequent stacking step conses the new preprocessed frame onto the most recent
    `agent_frame_history - 1` frames of the previous state, i.e. drops exactly the
    last (oldest) frame and preserves the state length. -/
theorem frame_stacking_replicates_and_drops_oldest (Raw F : Type) (preprocess : Raw → F)
    (h : ℕ) (hh : 1 ≤ h) (obs : Raw) (f : F) (cur : List F) (hcur : cur.length = h) :
    initialStackedState Raw F preprocess h obs = List.replicate h (preprocess obs) ∧
    stackFrames F f cur h = f :: cur.dropLast ∧
    (stackFrames F f cur h).length = h := by
  refine ⟨?_, ?_, ?_⟩
  · simp [initialStackedState, List.map_const']
  · rw [stackFrames, List.dropLast_eq_take, hcur]
  · simp only [stackFrames, List.length_cons, List.length_take, hcur]
    omega

/-- Witness for C2: frame history 2, previous state `[3, 4]`, new raw frame 8. -/
theorem frame_stacking_replicates_and_drops_oldest_witness :
    1 ≤ 2 ∧ ([3, 4] : List ℕ).length = 2 ∧
    (initialStackedState ℕ ℕ (fun r => r + 1) 2 8 = List.replicate 2 (8 + 1) ∧
      stackFrames ℕ 5 [3, 4] 2 = 5 :: ([3, 4] : List ℕ).dropLast ∧
      (stackFrames ℕ 5 [3, 4] 2).length = 2) :=
  ⟨by decide, by decide,
    frame_stacking_replicates_and_drops_oldest ℕ ℕ (fun r => r + 1) 2 (by decide) 8 5 [3, 4]
      (by decide)⟩

/-- C9: every transition appended to the replay memory by `Game._repeat_action` is
    non-terminal: the i-th append comes from a sub-step on which the environment did
    not report done (on a done sub-step the loop breaks before the append), and the
    stored record `<s, a, r, s'>` carries no done flag. -/
theorem appended_transitions_nonterminal (Raw F : Type) (preprocess : Raw → F) (h : ℕ)
    (env : ℕ → ℕ → StepResult Raw) (action n t : ℕ) (cur : List F) :
    ∀ i, i < (repeatAction Raw F preprocess h env action n t cur).appended.length →
      (env (t + i) action).done = false :=
  fun i hi => repeatActionGo_appended_nonterminal Raw F preprocess h env action n t cur 0 i hi

/-- Witness for C9: in the concrete environment the repeat executes three sub-steps
    (done on the third) and appends two transitions; sub-step 0 is non-terminal. -/
theorem appended_transitions_nonterminal_witness :
    0 < (repeatAction ℕ ℕ (fun r => r) 2 wEnv 9 4 0 [7, 7]).appended.length ∧
    (wEnv (0 + 0) 9).done = false :=
  ⟨by decide, appended_transitions_nonterminal ℕ ℕ (fun r => r) 2 wEnv 9 4 0 [7, 7] 0 (by decide)⟩

/-- C10: within one action repeat the reward stored with the i-th appended
    transition is the cumulative sum of the environment rewards of sub-steps
    0 through i of the repeat, not the individual reward of sub-step i alone. -/
theorem appended_reward_is_cumulative (Raw F : Type) (preprocess : Raw → F) (h : ℕ)
    (env : ℕ → ℕ → StepResult Raw) (action n t : ℕ) (cur : List F) :
    ∀ i, i < (repeatAction Raw F preprocess h env action n t cur).appended.length →
      ((repeatAction Raw F preprocess h env action n t cur).appended.getD i
          ⟨[], 0, 0, []⟩).reward
        = ∑ j ∈ Finset.range (i + 1), (env (t + j) action).reward := by
  intro i hi
  have := repeatActionGo_appended_reward Raw F preprocess h env action n t cur 0 i hi
  rwa [zero_add] at this

/-- Witness for C10: the second appended transition of the concrete repeat stores
    the sum of the rewards of sub-steps 0 and 1, not only sub-step 1's reward. -/
theorem appended_reward_is_cumulative_witness :
    1 < (repeatAction ℕ ℕ (fun r => r) 2 wEnv 9 4 0 [7, 7]).appended.length ∧
    ((repeatAction ℕ ℕ (fun r => r) 2 wEnv 9 4 0 [7, 7]).appended.getD 1
        ⟨[], 0, 0, []⟩).reward
      = ∑ j ∈ Finset.range 2, (wEnv (0 + j) 9).reward :=
  ⟨by decide, appended_reward_is_cumulative ℕ ℕ (fun r => r) 2 wEnv 9 4 0 [7, 7] 1 (by decide)⟩

/-- Body of `Game._train_and_play` (game.py lines 134-151), recursing on the
    remaining iterations of `for _ in range(self._fit_frequency)`.  Mirrors the
    source faithfully: `current_state` (`cur0`) is never reassigned inside the loop,
    so every iteration selects its action from and repeats from the same stacked
    state; `last` is the running `next_state` variable, `racc` the running `reward`,
    `apps` the transitions appended so far.  The action is chosen by `chooser`
    (modelling `agent.take_action(current_state, episode)`, indexed by the
    environment step counter to account for exploration randomness).  `agent.fit()`
    is performed after the loop; it does not touch the environment, the reward or
    the returned state, so it is modelled separately (see `DQNAgent.fit`). -/
def trainAndPlayGo (Raw F : Type) (preprocess : Raw → F) (h : ℕ)
    (env : ℕ → ℕ → StepResult Raw) (chooser : ℕ → List F → ℕ) (spa : ℕ)
    (cur0 : List F) : ℕ → ℕ → (Raw ⊕ List F) → ℤ → List (Transition F) → RepeatResult Raw F
  | 0, t, last, racc, apps => ⟨last, racc, false, apps, t⟩
  | k + 1, t, _last, racc, apps =>
    let r := repeatAction Raw F preprocess h env (chooser t cur0) spa t cur0
    let racc2 := racc + r.reward
    let apps2 := apps ++ r.appended
    if r.done then ⟨r.nextState, racc2, true, apps2, r.time⟩
    else trainAndPlayGo Raw F preprocess h env chooser spa cur0 k r.time r.nextState racc2 apps2

/-- `Game._train_and_play(agent, current_state, episode)` with `fit_frequency = ff`,
    starting at environment step counter `t`:
    `reward, next_state, done = 0, current_state, False` then the loop. -/
def trainAndPlay (Raw F : Type) (preprocess : Raw → F) (h : ℕ)
    (env : ℕ → ℕ → StepResult Raw) (chooser : ℕ → List F → ℕ) (spa ff t : ℕ)
    (cur : List F) : RepeatResult Raw F :=
  trainAndPlayGo Raw F preprocess h env chooser spa cur ff t (Sum.inr cur) 0 []

/-- `Game._observe` (game.py lines 160-173): takes action 0 for `n` steps
    (`n = randint(1, no_operation)`, a caller-supplied random draw), discarding the
    rewards, breaking on done.  Returns the last observed frame, the done flag and
    the environment step counter after the loop. -/
def observeGo (Raw : Type) (env : ℕ → ℕ → StepResult Raw) :
    ℕ → ℕ → Raw → Raw × Bool × ℕ
  | 0, t, obs => (obs, false, t)
  | n + 1, t, _obs =>
    let s := env t 0
    if s.done then (s.obs, true, t + 1)
    else observeGo Raw env n (t + 1) s.obs

/-- The per-episode score record written by `Game._game_loop` (game.py lines
    215-217) into `scorer.max_scores[episode - 1]` and
    `scorer.total_scores[episode - 1]`.  `max_score` starts at `-inf`, modelled by
    the bottom element of `WithBot ℤ`. -/
structure EpisodeScores where
  maxScore : WithBot ℤ
  totalScore : ℤ
deriving DecidableEq

/-- The `while not done` loop of `Game._game_loop` (game.py lines 207-213), bounded
    by `fuel` iterations (the gym environment is wrapped in a `TimeLimit`, so an
    episode that outlives the bound is modelled as unfinished, `none`): each
    iteration runs `_train_and_play`, adds its reward to the total score and takes
    the maximum with the running max score.  An unfinished episode writes no score
    record. -/
def episodeLoopGo (Raw F : Type) (preprocess : Raw → F) (h : ℕ)
    (env : ℕ → ℕ → StepResult Raw) (chooser : ℕ → List F → ℕ) (spa ff : ℕ) :
    ℕ → ℕ → List F → WithBot ℤ → ℤ → Option EpisodeScores
  | 0, _, _, _, _ => none
  | fuel + 1, t, cur, mx, tot =>
    let r := trainAndPlay Raw F preprocess h env chooser spa ff t cur
    if r.done then some ⟨max mx (r.reward : WithBot ℤ), tot + r.reward⟩
    else
      match r.nextState with
      | Sum.inr next =>
        episodeLoopGo Raw F preprocess h env chooser spa ff fuel r.time next
          (max mx (r.reward : WithBot ℤ)) (tot + r.reward)
      | Sum.inl _ => none

/-- One episode of `Game._game_loop` (game.py lines 183-217): reset gives
    `initFrame`, the observe phase runs for `noopSteps` no-op actions, the last
    observed frame is preprocessed and replicated into the initial stacked state,
    then the play loop runs until done.  If the environment reported done already
    during the observe phase, the loop body never runs and the record keeps its
    initial values `max_score = -inf`, `total_score = 0`. -/
def runEpisode (Raw F : Type) (preprocess : Raw → F) (h : ℕ)
    (env : ℕ → ℕ → StepResult Raw) (chooser : ℕ → List F → ℕ)
    (spa ff noopSteps fuel : ℕ) (initFrame : Raw) : Option EpisodeScores :=
  let ob := observeGo Raw env noopSteps 0 initFrame
  let cur := initialStackedState Raw F preprocess h ob.1
  if ob.2.1 then some ⟨⊥, 0⟩
  else episodeLoopGo Raw F preprocess h env chooser spa ff fuel ob.2.2 cur ⊥ 0

/-- The sequence of per-`_train_and_play`-call accumulated rewards of an episode,
    as seen by the `while not done` loop of `Game._game_loop`. -/
def chunkRewards (Raw F : Type) (preprocess : Raw → F) (h : ℕ)
    (env : ℕ → ℕ → StepResult Raw) (chooser : ℕ → List F → ℕ) (spa ff : ℕ) :
    ℕ → ℕ → List F → List ℤ
  | 0, _, _ => []
  | fuel + 1, t, cur =>
    let r := trainAndPlay Raw F preprocess h env chooser spa ff t cur
    if r.done then [r.reward]
    else
      match r.nextState with
      | Sum.inr next =>
        r.reward :: chunkRewards Raw F preprocess h env chooser spa ff fuel r.time next
      | Sum.inl _ => []

theorem episodeLoopGo_scores (Raw F : Type) (preprocess : Raw → F) (h : ℕ)
    (env : ℕ → ℕ → StepResult Raw) (chooser : ℕ → List F → ℕ) (spa ff : ℕ) :
    ∀ fuel t (cur : List F) (mx : WithBot ℤ) (tot : ℤ) (s : EpisodeScores),
      episodeLoopGo Raw F preprocess h env chooser spa ff fuel t cur mx tot = some s →
        s.totalScore = tot + (chunkRewards Raw F preprocess h env chooser spa ff fuel t cur).sum ∧
        s.maxScore = (chunkRewards Raw F preprocess h env chooser spa ff fuel t cur).foldl
          (fun m r => max m (r : WithBot ℤ)) mx := by
  intro fuel
  induction fuel with
  | zero => intro t cur mx tot s hs; simp [episodeLoopGo] at hs
  | succ fuel ih =>
    intro t cur mx tot s hs
    by_cases hd : (trainAndPlay Raw F preprocess h env chooser spa ff t cur).done = true
    · simp only [episodeLoopGo, hd, if_true] at hs
      rw [Option.some_inj] at hs
      subst hs
      simp [chunkRewards, hd]
    · rcases hns : (trainAndPlay Raw F preprocess h env chooser spa ff t cur).nextState
        with raw | next
      · simp only [episodeLoopGo, hd, Bool.false_eq_true, if_false, hns] at hs
        exact Option.noConfusion hs
      · simp only [episodeLoopGo, hd, Bool.false_eq_true, if_false, hns] at hs
        have := ih _ _ _ _ _ hs
        simp only [chunkRewards, hd, Bool.false_eq_true, if_false, hns,
          List.sum_cons, List.foldl_cons]
        refine ⟨?_, this.2⟩
        rw [this.1]
        ring

/-- Concrete environment refuting the claim that the recorded max score is the
    maximum single-step reward: rewards 5 (consumed by the observe phase), then 1, 1
    (one action repeat of two sub-steps), then 0 with done. -/
def cxEnv : ℕ → ℕ → StepResult ℕ :=
  fun t _ =>
    if t = 0 then ⟨0, 5, false⟩
    else if t = 1 then ⟨1, 1, false⟩
    else if t = 2 then ⟨2, 1, false⟩
    else ⟨3, 0, true⟩

/-- C7 counterexample: with `steps_per_action = 2`, `fit_frequency = 1`, one no-op
    observe step and the environment `cxEnv`, the episode's recorded score record is
    `max = 2, total = 2` (the per-`_train_and_play` accumulated rewards are `[2, 0]`),
    while the single-step rewards obtained during the episode are `5, 1, 1, 0`:
    their maximum is `5 ≠ 2` and their sum is `7 ≠ 2`, so the record holds neither
    the maximum single-step reward nor the sum of all step rewards of the episode. -/
theorem episode_scores_counterexample :
    runEpisode ℕ ℕ (fun r => r) 1 cxEnv (fun _ _ => 3) 2 1 1 5 0
      = some ⟨((2 : ℤ) : WithBot ℤ), (2 : ℤ)⟩ ∧
    (cxEnv 0 0).reward = 5 ∧ (cxEnv 1 3).reward = 1 ∧
    (cxEnv 2 3).reward = 1 ∧ (cxEnv 3 3).reward = 0 ∧
    ((2 : ℤ) : WithBot ℤ) ≠ ((5 : ℤ) : WithBot ℤ) ∧ (2 : ℤ) ≠ 5 + 1 + 1 + 0 := by
  decide

/-- C7 (amended): for every completed episode, the recorded total score is the sum
    of the per-`_train_and_play`-call accumulated rewards (rewards obtained during
    the observe phase are discarded), and the recorded max score is the maximum of
    those per-call accumulated rewards — not the maximum single-step reward — with
    `-inf` recorded when the environment reports done already during the observe
    phase. -/
theorem episode_scores_record_chunk_rewards (Raw F : Type) (preprocess : Raw → F)
    (h : ℕ) (env : ℕ → ℕ → StepResult Raw) (chooser : ℕ → List F → ℕ)
    (spa ff noopSteps fuel : ℕ) (initFrame : Raw) (s : EpisodeScores)
    (hrun : runEpisode Raw F preprocess h env chooser spa ff noopSteps fuel initFrame
      = some s) :
    ((observeGo Raw env noopSteps 0 initFrame).2.1 = true →
      s = ⟨⊥, 0⟩) ∧
    ((observeGo Raw env noopSteps 0 initFrame).2.1 = false →
      s.totalScore = (chunkRewards Raw F preprocess h env chooser spa ff fuel
          (observeGo Raw env noopSteps 0 initFrame).2.2
          (initialStackedState Raw F preprocess h (observeGo Raw env noopSteps 0 initFrame).1)).sum ∧
      s.maxScore = (chunkRewards Raw F preprocess h env chooser spa ff fuel
          (observeGo Raw env noopSteps 0 initFrame).2.2
          (initialStackedState Raw F preprocess h (observeGo Raw env noopSteps 0 initFrame).1)).foldl
        (fun m r => max m (r : WithBot ℤ)) ⊥) := by
  constructor
  · intro hdone
    rw [runEpisode] at hrun
    simp only [hdone, if_true] at hrun
    exact (Option.some_inj.mp hrun).symm
  · intro hnotdone
    rw [runEpisode] at hrun
    simp only [hnotdone, Bool.false_eq_true, if_false] at hrun
    have := episodeLoopGo_scores Raw F preprocess h env chooser spa ff fuel
      (observeGo Raw env noopSteps 0 initFrame).2.2
      (initialStackedState Raw F preprocess h (observeGo Raw env noopSteps 0 initFrame).1)
      ⊥ 0 s hrun
    rcases this with ⟨h1, h2⟩
    exact ⟨by rw [h1, zero_add], h2⟩

/-- Witness for the amended C7 at the concrete environment `cxEnv`: the completed
    episode records total `2` and max `2`, the sum and maximum of the
    per-`_train_and_play` rewards `[2, 0]`. -/
theorem episode_scores_record_chunk_rewards_witness :
    runEpisode ℕ ℕ (fun r => r) 1 cxEnv (fun _ _ => 3) 2 1 1 5 0
      = some ⟨((2 : ℤ) : WithBot ℤ), (2 : ℤ)⟩ ∧
    ((observeGo ℕ cxEnv 1 0 0).2.1 = true →
      (⟨((2 : ℤ) : WithBot ℤ), (2 : ℤ)⟩ : EpisodeScores) = ⟨⊥, 0⟩) ∧
    ((observeGo ℕ cxEnv 1 0 0).2.1 = false →
      (⟨((2 : ℤ) : WithBot ℤ), (2 : ℤ)⟩ : EpisodeScores).totalScore
        = (chunkRewards ℕ ℕ (fun r => r) 1 cxEnv (fun _ _ => 3) 2 1 5
            (observeGo ℕ cxEnv 1 0 0).2.2
            (initialStackedState ℕ ℕ (fun r => r) 1 (observeGo ℕ cxEnv 1 0 0).1)).sum ∧
      (⟨((2 : ℤ) : WithBot ℤ), (2 : ℤ)⟩ : EpisodeScores).maxScore
        = (chunkRewards ℕ ℕ (fun r => r) 1 cxEnv (fun _ _ => 3) 2 1 5
            (observeGo ℕ cxEnv 1 0 0).2.2
            (initialStackedState ℕ ℕ (fun r => r) 1 (observeGo ℕ cxEnv 1 0 0).1)).foldl
          (fun m r => max m (r : WithBot ℤ)) ⊥) :=
  ⟨by decide,
    episode_scores_record_chunk_rewards ℕ ℕ (fun r => r) 1 cxEnv (fun _ _ => 3) 2 1 1 5 0
      ⟨((2 : ℤ) : WithBot ℤ), (2 : ℤ)⟩ (by decide)⟩

/-- Modelled from the spec: `core/policy.py` (class `EGreedyPolicy`) is not among
    the sources; only its constructor call in `skiing.py` is.  The epsilon schedule
    is modelled from the spec's words: epsilon is held constant at `initial_epsilon`
    (`e0`) during the first `total_observe_count` (`observe`) steps, then
    decremented by `epsilon_decay` (`decay`) per step, never dropping below
    `final_epsilon` (`ef`), after which it stays fixed. -/
def epsilonAt (e0 ef decay : ℚ) (observe : ℕ) : ℕ → ℚ
  | 0 => e0
  | n + 1 =>
    if n + 1 ≤ observe then e0
    else max ef (epsilonAt e0 ef decay observe n - decay)

theorem epsilonAt_le_initial (e0 ef decay : ℚ) (observe : ℕ) (hef : ef ≤ e0)
    (hdecay : 0 ≤ decay) : ∀ n, epsilonAt e0 ef decay observe n ≤ e0 := by
  intro n
  induction n with
  | zero => exact le_refl e0
  | succ n ih =>
    rw [epsilonAt]
    by_cases hn : n + 1 ≤ observe
    · simp [hn]
    · simp only [hn, if_false]
      exact max_le hef (le_trans (sub_le_self _ hdecay) ih)

theorem final_le_epsilonAt (e0 ef decay : ℚ) (observe : ℕ) (hef : ef ≤ e0) :
    ∀ n, ef ≤ epsilonAt e0 ef decay observe n := by
  intro n
  induction n with
  | zero => exact hef
  | succ n _ =>
    rw [epsilonAt]
    by_cases hn : n + 1 ≤ observe
    · simp [hn, hef]
    · simp only [hn, if_false]
      exact le_max_left _ _

theorem epsilonAt_of_le_observe (e0 ef decay : ℚ) (observe : ℕ) :
    ∀ n, n ≤ observe → epsilonAt e0 ef decay observe n = e0 := by
  intro n hn
  match n with
  | 0 => rfl
  | n + 1 => rw [epsilonAt, if_pos hn]

/-- C3: for every step count the policy's epsilon stays within
    `[final_epsilon, initial_epsilon]`; it is constant at `initial_epsilon` during
    the first `total_observe_count` steps, monotonically non-increasing afterwards,
    decremented by exactly `epsilon_decay` per step while it is still at least
    `final_epsilon + epsilon_decay`, and once it reaches `final_epsilon` it stays
    there. -/
theorem epsilon_schedule_bounds_and_monotone (e0 ef decay : ℚ) (observe : ℕ)
    (hef : ef ≤ e0) (hdecay : 0 ≤ decay) :
    (∀ n, ef ≤ epsilonAt e0 ef decay observe n ∧ epsilonAt e0 ef decay observe n ≤ e0) ∧
    (∀ n, n ≤ observe → epsilonAt e0 ef decay observe n = e0) ∧
    (∀ n, epsilonAt e0 ef decay observe (n + 1) ≤ epsilonAt e0 ef decay observe n) ∧
    (∀ n, observe < n + 1 → ef + decay ≤ epsilonAt e0 ef decay observe n →
      epsilonAt e0 ef decay observe (n + 1) = epsilonAt e0 ef decay observe n - decay) ∧
    (∀ n, epsilonAt e0 ef decay observe n = ef →
      epsilonAt e0 ef decay observe (n + 1) = ef) := by
  refine ⟨fun n => ⟨final_le_epsilonAt e0 ef decay observe hef n,
    epsilonAt_le_initial e0 ef decay observe hef hdecay n⟩,
    epsilonAt_of_le_observe e0 ef decay observe, ?_, ?_, ?_⟩
  · intro n
    by_cases hn : n + 1 ≤ observe
    · rw [epsilonAt, if_pos hn, epsilonAt_of_le_observe e0 ef decay observe n (by omega)]
    · rw [epsilonAt, if_neg hn]
      exact max_le (final_le_epsilonAt e0 ef decay observe hef n)
        (sub_le_self _ hdecay)
  · intro n hn hfar
    rw [epsilonAt, if_neg (by omega)]
    exact max_eq_right (by linarith)
  · intro n hn
    by_cases hobs : n + 1 ≤ observe
    · rw [epsilonAt, if_pos hobs,
        ← epsilonAt_of_le_observe e0 ef decay observe n (by omega), hn]
    · rw [epsilonAt, if_neg hobs, hn]
      exact max_eq_left (sub_le_self _ hdecay)

/-- Witness for C3 at initial epsilon 1, final epsilon 1/10, decay 3/10, observe
    count 2. -/
theorem epsilon_schedule_bounds_and_monotone_witness :
    ((1 : ℚ) / 10 ≤ 1 ∧ (0 : ℚ) ≤ 3 / 10) ∧
    ((∀ n, (1 : ℚ) / 10 ≤ epsilonAt 1 (1 / 10) (3 / 10) 2 n ∧
        epsilonAt 1 (1 / 10) (3 / 10) 2 n ≤ 1) ∧
      (∀ n, n ≤ 2 → epsilonAt 1 (1 / 10) (3 / 10) 2 n = 1) ∧
      (∀ n, epsilonAt 1 (1 / 10) (3 / 10) 2 (n + 1) ≤ epsilonAt 1 (1 / 10) (3 / 10) 2 n) ∧
      (∀ n, 2 < n + 1 → (1 : ℚ) / 10 + 3 / 10 ≤ epsilonAt 1 (1 / 10) (3 / 10) 2 n →
        epsilonAt 1 (1 / 10) (3 / 10) 2 (n + 1) = epsilonAt 1 (1 / 10) (3 / 10) 2 n - 3 / 10) ∧
      (∀ n, epsilonAt 1 (1 / 10) (3 / 10) 2 n = 1 / 10 →
        epsilonAt 1 (1 / 10) (3 / 10) 2 (n + 1) = 1 / 10)) :=
  ⟨⟨by norm_num, by norm_num⟩,
    epsilon_schedule_bounds_and_monotone 1 (1 / 10) (3 / 10) 2 (by norm_num) (by norm_num)⟩

/-- The error `ReplayMemory.sample` fails with when fewer transitions are stored
    than requested. -/
inductive InsufficientDataError where
  | insufficientData
deriving DecidableEq

/-- Draw `k` indices without replacement from the pool `avail`: each draw removes
    the drawn index from the pool, the position of the j-th draw being selected by
    the caller-supplied random stream `pick` (reduced modulo the current pool
    size). -/
def drawIdxs (pick : ℕ → ℕ) : ℕ → List ℕ → List ℕ
  | 0, _ => []
  | k + 1, avail =>
    let x := avail.getD (pick k % avail.length) 0
    x :: drawIdxs pick k (avail.erase x)

theorem drawIdxs_spec (pick : ℕ → ℕ) :
    ∀ k (avail : List ℕ), avail.Nodup → k ≤ avail.length →
      (drawIdxs pick k avail).Nodup ∧ (drawIdxs pick k avail).length = k ∧
        ∀ i ∈ drawIdxs pick k avail, i ∈ avail := by
  intro k
  induction k with
  | zero =>
    intro avail _ _
    exact ⟨List.nodup_nil, rfl, fun i hi => absurd hi (List.not_mem_nil i)⟩
  | succ k ih =>
    intro avail hnd hlen
    have hpos : 0 < avail.length := by omega
    have hplt : pick k % avail.length < avail.length := Nat.mod_lt _ hpos
    have hxmem : avail.getD (pick k % avail.length) 0 ∈ avail := by
      rw [List.getD_eq_getElem?_getD, List.getElem?_eq_getElem hplt]
      exact List.getElem_mem hplt
    have herased : (avail.erase (avail.getD (pick k % avail.length) 0)).length
        = avail.length - 1 := List.length_erase_of_mem hxmem
    have hrec := ih (avail.erase (avail.getD (pick k % avail.length) 0))
      (hnd.erase _) (by omega)
    refine ⟨?_, ?_, ?_⟩
    · rw [drawIdxs]
      exact List.Nodup.cons
        (fun hmem => hnd.not_mem_erase (hrec.2.2 _ hmem)) hrec.1
    · rw [drawIdxs, List.length_cons, hrec.2.1]
    · intro i hi
      rw [drawIdxs, List.mem_cons] at hi
      rcases hi with hi | hi
      · rw [hi]; exact hxmem
      · exact List.erase_subset _ _ (hrec.2.2 _ hi)

/-- Modelled from the spec: `core/agent.py` (class `ReplayMemory`) is not among the
    sources; only its use sites in `skiing.py` are.  `sample(batch_size)` draws
    `batch_size` stored transitions without replacement (random draws supplied by
    `pick`) and fails with an `InsufficientDataError` when fewer transitions are
    stored; the buffer itself is a pure value here, so the call cannot mutate it. -/
def sample (T : Type) (mem : List T) (batchSize : ℕ) (pick : ℕ → ℕ) (d : T) :
    Except InsufficientDataError (List T) :=
  if mem.length < batchSize then Except.error InsufficientDataError.insufficientData
  else Except.ok ((drawIdxs pick batchSize (List.range mem.length)).map
    (fun i => mem.getD i d))

/-- C4: on a memory holding at least `batch_size` transitions, `sample` returns the
    entries at `batch_size` pairwise-distinct stored positions — so every returned
    transition is currently stored and no stored position is returned twice — while
    on a smaller memory it fails with `InsufficientDataError`; the buffer, passed by
    value, is unchanged in both cases. -/
theorem sample_distinct_or_insufficient (T : Type) (mem : List T) (batchSize : ℕ)
    (pick : ℕ → ℕ) (d : T) :
    (batchSize ≤ mem.length →
      ∃ idxs : List ℕ, idxs.Nodup ∧ idxs.length = batchSize ∧
        (∀ i ∈ idxs, i < mem.length) ∧
        sample T mem batchSize pick d = Except.ok (idxs.map (fun i => mem.getD i d)) ∧
        ∀ x ∈ idxs.map (fun i => mem.getD i d), x ∈ mem) ∧
    (mem.length < batchSize →
      sample T mem batchSize pick d = Except.error InsufficientDataError.insufficientData) := by
  constructor
  · intro hle
    refine ⟨drawIdxs pick batchSize (List.range mem.length), ?_, ?_, ?_, ?_, ?_⟩
    · exact (drawIdxs_spec pick batchSize (List.range mem.length) (List.nodup_range _)
        (by rw [List.length_range]; exact hle)).1
    · exact (drawIdxs_spec pick batchSize (List.range mem.length) (List.nodup_range _)
        (by rw [List.length_range]; exact hle)).2.1
    · intro i hi
      have := (drawIdxs_spec pick batchSize (List.range mem.length) (List.nodup_range _)
        (by rw [List.length_range]; exact hle)).2.2 i hi
      exact List.mem_range.mp this
    · rw [sample, if_neg (by omega)]
    · intro x hx
      rw [List.mem_map] at hx
      rcases hx with ⟨i, hi, hxi⟩
      have hilt : i < mem.length := by
        have := (drawIdxs_spec pick batchSize (List.range mem.length) (List.nodup_range _)
          (by rw [List.length_range]; exact hle)).2.2 i hi
        exact List.mem_range.mp this
      rw [← hxi, List.getD_eq_getElem?_getD, List.getElem?_eq_getElem hilt]
      exact List.getElem_mem hilt
  · intro hlt
    rw [sample, if_pos hlt]

/-- Witness for C4: a three-entry memory sampled with batch size 2 yields two
    distinct stored entries, and sampling 4 from it fails. -/
theorem sample_distinct_or_insufficient_witness :
    ((2 ≤ ([10, 20, 30] : List ℕ).length →
      ∃ idxs : List ℕ, idxs.Nodup ∧ idxs.length = 2 ∧
        (∀ i ∈ idxs, i < ([10, 20, 30] : List ℕ).length) ∧
        sample ℕ [10, 20, 30] 2 (fun n => n + 1) 0
          = Except.ok (idxs.map (fun i => ([10, 20, 30] : List ℕ).getD i 0)) ∧
        ∀ x ∈ idxs.map (fun i => ([10, 20, 30] : List ℕ).getD i 0), x ∈ [10, 20, 30]) ∧
    (([10, 20, 30] : List ℕ).length < 2 →
      sample ℕ [10, 20, 30] 2 (fun n => n + 1) 0
        = Except.error InsufficientDataError.insufficientData)) ∧
    sample ℕ [10, 20, 30] 4 (fun n => n + 1) 0
      = Except.error InsufficientDataError.insufficientData :=
  ⟨sample_distinct_or_insufficient ℕ [10, 20, 30] 2 (fun n => n + 1) 0,
    (sample_distinct_or_insufficient ℕ [10, 20, 30] 4 (fun n => n + 1) 0).2 (by decide)⟩

/-- Modelled from the spec: `core/agent.py` (class `DQN`) is not among the sources.
    The agent state named by the spec: online network weights, target network
    weights (`W` opaque), the replay memory, the batch size, the target-network
    sync interval and the counter of completed (non-no-op) fit calls. -/
structure DQNAgent (W F : Type) where
  online : W
  target : W
  memory : List (Transition F)
  batchSize : ℕ
  targetModelChange : ℕ
  fitCount : ℕ
deriving DecidableEq

/-- Modelled from the spec: `DQN.fit()` from `core/agent.py` is not among the
    sources; only its call site in `Game._train_and_play` is.  Per the spec's
    words: if the replay memory holds fewer than `batch_size` transitions it is a
    benign no-op returning a null result (`none`); otherwise it samples a batch
    without replacement, performs one gradient step on the online network (the
    opaque external `trainStep`, returning the new weights and the loss), and every
    `target_model_change` completed fit calls copies the online weights into the
    target network verbatim. -/
def DQNAgent.fit (W F : Type) (trainStep : W → List (Transition F) → W × ℚ)
    (pick : ℕ → ℕ) (a : DQNAgent W F) : Option ℚ × DQNAgent W F :=
  if a.memory.length < a.batchSize then (none, a)
  else
    let batch := (drawIdxs pick a.batchSize (List.range a.memory.length)).map
      (fun i => a.memory.getD i ⟨[], 0, 0, []⟩)
    let res := trainStep a.online batch
    let newCount := a.fitCount + 1
    (some res.2,
      { a with
          online := res.1,
          target := if newCount % a.targetModelChange = 0 then res.1 else a.target,
          fitCount := newCount })

/-- C5: calling `fit` while the replay memory holds fewer than `batch_size`
    transitions performs no update at all: it returns the null result `none` rather
    than an error, and the agent — its online network weights included — is
    returned identically unchanged. -/
theorem fit_noop_on_insufficient_memory (W F : Type)
    (trainStep : W → List (Transition F) → W × ℚ) (pick : ℕ → ℕ) (a : DQNAgent W F)
    (hmem : a.memory.length < a.batchSize) :
    DQNAgent.fit W F trainStep pick a = (none, a) := by
  rw [DQNAgent.fit, if_pos hmem]

/-- Witness for C5: an agent with an empty memory and batch size 1. -/
theorem fit_noop_on_insufficient_memory_witness :
    (⟨0, 5, [], 1, 3, 0⟩ : DQNAgent ℕ ℕ).memory.length
        < (⟨0, 5, [], 1, 3, 0⟩ : DQNAgent ℕ ℕ).batchSize ∧
    DQNAgent.fit ℕ ℕ (fun w _ => (w + 1, 0)) (fun _ => 0) ⟨0, 5, [], 1, 3, 0⟩
      = (none, ⟨0, 5, [], 1, 3, 0⟩) :=
  ⟨by decide,
    fit_noop_on_insufficient_memory ℕ ℕ (fun w _ => (w + 1, 0)) (fun _ => 0)
      ⟨0, 5, [], 1, 3, 0⟩ (by decide)⟩

/-- C6: the target network's weights change only at a fit call whose completed-fit
    count is an exact multiple of `target_model_change`; at such a call the target
    weights become verbatim equal to the (new) online weights, and at every other
    fit call — the no-op calls on an underfull memory included — the target weights
    are unchanged. -/
theorem target_sync_only_at_multiples (W F : Type)
    (trainStep : W → List (Transition F) → W × ℚ) (pick : ℕ → ℕ) (a : DQNAgent W F) :
    ((DQNAgent.fit W F trainStep pick a).2.target ≠ a.target →
      (DQNAgent.fit W F trainStep pick a).2.fitCount % a.targetModelChange = 0 ∧
      (DQNAgent.fit W F trainStep pick a).2.target
        = (DQNAgent.fit W F trainStep pick a).2.online) ∧
    (a.batchSize ≤ a.memory.length →
      (DQNAgent.fit W F trainStep pick a).2.fitCount = a.fitCount + 1 ∧
      ((a.fitCount + 1) % a.targetModelChange = 0 →
        (DQNAgent.fit W F trainStep pick a).2.target
          = (DQNAgent.fit W F trainStep pick a).2.online) ∧
      ((a.fitCount + 1) % a.targetModelChange ≠ 0 →
        (DQNAgent.fit W F trainStep pick a).2.target = a.target)) := by
  by_cases hmem : a.memory.length < a.batchSize
  · have hfit : DQNAgent.fit W F trainStep pick a = (none, a) := by
      rw [DQNAgent.fit, if_pos hmem]
    rw [hfit]
    exact ⟨fun hne => absurd rfl hne, fun hle => absurd hle (by omega)⟩
  · have hfit : DQNAgent.fit W F trainStep pick a
        = (some (trainStep a.online
            ((drawIdxs pick a.batchSize (List.range a.memory.length)).map
              (fun i => a.memory.getD i ⟨[], 0, 0, []⟩))).2,
          { a with
              online := (trainStep a.online
                ((drawIdxs pick a.batchSize (List.range a.memory.length)).map
                  (fun i => a.memory.getD i ⟨[], 0, 0, []⟩))).1,
              target := if (a.fitCount + 1) % a.targetModelChange = 0 then
                  (trainStep a.online
                    ((drawIdxs pick a.batchSize (List.range a.memory.length)).map
                      (fun i => a.memory.getD i ⟨[], 0, 0, []⟩))).1
                else a.target,
              fitCount := a.fitCount + 1 }) := by
      rw [DQNAgent.fit, if_neg hmem]
    rw [hfit]
    by_cases hmod : (a.fitCount + 1) % a.targetModelChange = 0
    · rw [if_pos hmod]
      exact ⟨fun _ => ⟨hmod, rfl⟩, fun _ => ⟨rfl, fun _ => rfl, fun hne => absurd hmod hne⟩⟩
    · rw [if_neg hmod]
      exact ⟨fun hne => absurd rfl hne,
        fun _ => ⟨rfl, fun hmod2 => absurd hmod2 hmod, fun _ => rfl⟩⟩

/-- Witness for C6: an agent one fit away from its sync interval of 2, with a
    sufficient memory; the fit syncs the target to the new online weights. -/
theorem target_sync_only_at_multiples_witness :
    ((DQNAgent.fit ℕ ℕ (fun w _ => (w + 1, 0)) (fun _ => 0)
        ⟨0, 5, [⟨[], 0, 0, []⟩], 1, 2, 1⟩).2.target ≠ 5 →
      (DQNAgent.fit ℕ ℕ (fun w _ => (w + 1, 0)) (fun _ => 0)
          ⟨0, 5, [⟨[], 0, 0, []⟩], 1, 2, 1⟩).2.fitCount % 2 = 0 ∧
      (DQNAgent.fit ℕ ℕ (fun w _ => (w + 1, 0)) (fun _ => 0)
          ⟨0, 5, [⟨[], 0, 0, []⟩], 1, 2, 1⟩).2.target
        = (DQNAgent.fit ℕ ℕ (fun w _ => (w + 1, 0)) (fun _ => 0)
            ⟨0, 5, [⟨[], 0, 0, []⟩], 1, 2, 1⟩).2.online) ∧
    (1 ≤ ([⟨[], 0, 0, []⟩] : List (Transition ℕ)).length →
      (DQNAgent.fit ℕ ℕ (fun w _ => (w + 1, 0)) (fun _ => 0)
          ⟨0, 5, [⟨[], 0, 0, []⟩], 1, 2, 1⟩).2.fitCount = 1 + 1 ∧
      ((1 + 1) % 2 = 0 →
        (DQNAgent.fit ℕ ℕ (fun w _ => (w + 1, 0)) (fun _ => 0)
            ⟨0, 5, [⟨[], 0, 0, []⟩], 1, 2, 1⟩).2.target
          = (DQNAgent.fit ℕ ℕ (fun w _ => (w + 1, 0)) (fun _ => 0)
              ⟨0, 5, [⟨[], 0, 0, []⟩], 1, 2, 1⟩).2.online) ∧
      ((1 + 1) % 2 ≠ 0 →
        (DQNAgent.fit ℕ ℕ (fun w _ => (w + 1, 0)) (fun _ => 0)
            ⟨0, 5, [⟨[], 0, 0, []⟩], 1, 2, 1⟩).2.target = 5)) :=
  target_sync_only_at_multiples ℕ ℕ (fun w _ => (w + 1, 0)) (fun _ => 0)
    ⟨0, 5, [⟨[], 0, 0, []⟩], 1, 2, 1⟩

/-- The agent configuration visible to `create_agent` in `skiing.py`: the loaded
    (or fresh) agent's observation-space shape, action-space size and the
    hyperparameters `create_agent` overwrites after a successful load
    (`load_dqn_agent` itself is external to the sources and is passed in as the
    opaque `loadDqnAgent` function). -/
structure AgentConfig where
  observationSpaceShape : ℕ × ℕ × ℕ
  actionSize : ℕ
  targetModelChange : ℕ
  gamma : ℚ
  batchSize : ℕ
deriving DecidableEq

/-- `IncompatibleAgentConfigurationError` of `skiing.py` (lines 81-82), carrying
    the message it is raised with. -/
inductive AgentError where
  | incompatibleAgentConfiguration (message : String)
deriving DecidableEq

/-- `create_agent()` of `skiing.py` (lines 85-119): when `agent_path` is non-empty
    the persisted agent is loaded and its observation-space shape and action-space
    size are checked against the game's; a mismatch raises an
    `IncompatibleAgentConfigurationError` before the agent is returned, otherwise
    the loaded agent continues with the new configuration parameters.  With an
    empty `agent_path` a fresh agent is built. -/
def createAgent (agentPath : String) (loadDqnAgent : String → AgentConfig)
    (gameObservationSpaceShape : ℕ × ℕ × ℕ) (gameActionSpaceSize : ℕ)
    (targetModelChange : ℕ) (gamma : ℚ) (batchSize : ℕ)
    (freshAgent : AgentConfig) : Except AgentError AgentConfig :=
  if agentPath ≠ "" then
    let dqn := loadDqnAgent agentPath
    if dqn.observationSpaceShape ≠ gameObservationSpaceShape then
      Except.error (AgentError.incompatibleAgentConfiguration
        "Incompatible observation space shapes have been encountered.")
    else if dqn.actionSize ≠ gameActionSpaceSize then
      Except.error (AgentError.incompatibleAgentConfiguration "")
    else
      Except.ok { dqn with
        targetModelChange := targetModelChange, gamma := gamma, batchSize := batchSize }
  else
    Except.ok freshAgent

/-- C8: when an agent is loaded from a persisted file (`agent_path` non-empty) and
    its observation-space shape differs from the environment's, or its action-space
    size differs, `create_agent` fails at construction time with an
    `IncompatibleAgentConfigurationError` instead of returning an agent. -/
theorem create_agent_rejects_incompatible_config (agentPath : String)
    (loadDqnAgent : String → AgentConfig) (gameObservationSpaceShape : ℕ × ℕ × ℕ)
    (gameActionSpaceSize targetModelChange : ℕ) (gamma : ℚ) (batchSize : ℕ)
    (freshAgent : AgentConfig) (hpath : agentPath ≠ "")
    (hmismatch : (loadDqnAgent agentPath).observationSpaceShape ≠ gameObservationSpaceShape
      ∨ (loadDqnAgent agentPath).actionSize ≠ gameActionSpaceSize) :
    ∃ msg, createAgent agentPath loadDqnAgent gameObservationSpaceShape gameActionSpaceSize
        targetModelChange gamma batchSize freshAgent
      = Except.error (AgentError.incompatibleAgentConfiguration msg) := by
  rw [createAgent, if_pos hpath]
  by_cases hshape :
      (loadDqnAgent agentPath).observationSpaceShape ≠ gameObservationSpaceShape
  · exact ⟨"Incompatible observation space shapes have been encountered.",
      by rw [if_pos hshape]⟩
  · have hact : (loadDqnAgent agentPath).actionSize ≠ gameActionSpaceSize := by
      rcases hmismatch with hm | hm
      · exact absurd hm hshape
      · exact hm
    exact ⟨"", by rw [if_neg hshape, if_pos hact]⟩

/-- Witness for C8: loading from path "saved" an agent whose action-space size 4
    differs from the game's 3 fails with the configuration-mismatch error. -/
theorem create_agent_rejects_incompatible_config_witness :
    ("saved" : String) ≠ "" ∧
    (((1, 2, 3), 4) : (ℕ × ℕ × ℕ) × ℕ).2 ≠ 3 ∧
    ∃ msg, createAgent "saved" (fun _ => ⟨(1, 2, 3), 4, 100, 9 / 10, 32⟩)
        (1, 2, 3) 3 500 (99 / 100) 32 ⟨(1, 2, 3), 3, 500, 99 / 100, 32⟩
      = Except.error (AgentError.incompatibleAgentConfiguration msg) :=
  ⟨by decide, by decide,
    create_agent_rejects_incompatible_config "saved"
      (fun _ => ⟨(1, 2, 3), 4, 100, 9 / 10, 32⟩) (1, 2, 3) 3 500 (99 / 100) 32
      ⟨(1, 2, 3), 3, 500, 99 / 100, 32⟩ (by decide) (Or.inr (by decide))⟩

end AtariSkiing
